import Mathlib

/-!
Verification development for the MCP HTTP template server
(`mcp_server/main.py`).

The development shallowly embeds the parts of the program the claims
are about:

* `InMemoryEventStore` with its two methods `store_event` and
  `get_events_since` (`main.py`, class `InMemoryEventStore`);
* the `calculate` branch of the `call_tool` dispatcher;
* the `send_notification` branch of `call_tool`, with the published
  log messages and the sleeps recorded as an explicit trace;
* the `read_resource` handler.

Python numbers are modelled by `PyNum`: an `int` is exact (Python ints
are arbitrary precision), and a `float` carries the exact rational
value of the IEEE-754 binary64 double.  Float arithmetic rounds:
every float-producing operation applies `roundB64`, round-to-nearest,
ties-to-even at 53 significand bits, which is exactly what CPython's
float operations (and its int/int true division) compute for values in
the normal binary64 range; overflow to infinity and subnormal
underflow are outside the modelled range and outside every value the
claims exercise.  A Python `dict` is modelled as an association list
with insertion order, which is exactly the observable behaviour of
`dict` for the operations the code performs (membership test, item
get, item set, insertion of a fresh key at the end).  A raised
exception is modelled as `Except.error`.
-/

namespace MCPServer

/-- One stored event: the Python dict `{"id": event_id, "message": message}`
appended by `store_event`.  The payload type is opaque. -/
structure StoredEvent (M : Type) where
  id : String
  message : M
deriving DecidableEq

/-- The state of `InMemoryEventStore`: `self.events` (a dict from stream id
to the list of stored events, modelled as an insertion-ordered association
list) and `self.event_counter`. -/
structure InMemoryEventStore (M : Type) where
  events : List (String × List (StoredEvent M))
  event_counter : Nat
deriving DecidableEq

/-- The store `InMemoryEventStore()` produces: empty dict, counter `0`. -/
def emptyStore (M : Type) : InMemoryEventStore M := ⟨[], 0⟩

/-- The event id the code assigns: the Python f-string `f"event_{counter}"`
(`Nat.repr` is decimal rendering, as Python `str` on a non-negative int). -/
def eventIdStr (k : Nat) : String := "event_" ++ Nat.repr k

/-- Dictionary item lookup on the association-list model: the first (and,
for states reachable from a real dict, only) entry with the given key. -/
def listLookup {β : Type} (l : List (String × β)) (sid : String) : Option β :=
  (l.find? (fun p => p.1 == sid)).map (fun p => p.2)

/-- Dictionary item update `self.events[stream_id].append(ev)`: append `ev`
to the sequence held at the (unique) entry for `sid`. -/
def updateStream {M : Type} (sid : String) (ev : StoredEvent M) :
    List (String × List (StoredEvent M)) → List (String × List (StoredEvent M))
  | [] => []
  | p :: rest =>
    if p.1 == sid then (p.1, p.2 ++ [ev]) :: rest else p :: updateStream sid ev rest

/-- `InMemoryEventStore.store_event`: increment the counter, render the new
event id, insert an empty sequence if the stream key is absent, then append
the new event to the stream's sequence.  Returns the id and the new state. -/
def store_event {M : Type} (s : InMemoryEventStore M) (stream_id : String) (message : M) :
    String × InMemoryEventStore M :=
  let counter := s.event_counter + 1
  let event_id := eventIdStr counter
  let events1 :=
    if (listLookup s.events stream_id).isNone then s.events ++ [(stream_id, [])]
    else s.events
  (event_id, ⟨updateStream stream_id ⟨event_id, message⟩ events1, counter⟩)

/-- The `for i, event in enumerate(events): if event["id"] == last_event_id:
return events[i + 1:]` loop of `get_events_since`: `some` of the strict
suffix after the first event whose id matches, `none` if no event matches. -/
def scanSince {M : Type} (leid : String) : List (StoredEvent M) → Option (List (StoredEvent M))
  | [] => none
  | e :: rest => if e.id == leid then some rest else scanSince leid rest

/-- `InMemoryEventStore.get_events_since`.  The state is threaded explicitly
(the method body only reads `self`, so every return site pairs the result
with the incoming state).  `last_event_id = none` is the absent argument;
Python's `if not last_event_id` also treats the empty string as absent. -/
def get_events_since {M : Type} (s : InMemoryEventStore M) (stream_id : String)
    (last_event_id : Option String) : List (StoredEvent M) × InMemoryEventStore M :=
  match listLookup s.events stream_id with
  | none => ([], s)
  | some events =>
    match last_event_id with
    | none => (events, s)
    | some leid =>
      if leid = "" then (events, s)
      else
        match scanSince leid events with
        | some suffix => (suffix, s)
        | none => (events, s)

/-- Run a sequence of `store_event` calls (stream id, payload) from a given
state, returning the final state. -/
def runFrom {M : Type} : InMemoryEventStore M → List (String × M) → InMemoryEventStore M
  | s, [] => s
  | s, (sid, m) :: rest => runFrom (store_event s sid m).2 rest

/-- Run a sequence of `store_event` calls from the freshly constructed store. -/
def runStore {M : Type} (ops : List (String × M)) : InMemoryEventStore M :=
  runFrom (emptyStore M) ops

/-- The event ids returned by a sequence of `store_event` calls, in call
order. -/
def runTraceFrom {M : Type} : InMemoryEventStore M → List (String × M) → List String
  | _, [] => []
  | s, (sid, m) :: rest => (store_event s sid m).1 :: runTraceFrom (store_event s sid m).2 rest

/-- The event ids returned by a sequence of `store_event` calls starting from
the freshly constructed store. -/
def runTrace {M : Type} (ops : List (String × M)) : List String :=
  runTraceFrom (emptyStore M) ops

/-- Specification-side view of one stream after a sequence of calls starting
at counter value `c`: the calls that target `sid`, in call order, each paired
with the id the shared counter assigns at its global position. -/
def streamEventsFrom {M : Type} (sid : String) : Nat → List (String × M) → List (StoredEvent M)
  | _, [] => []
  | c, (tid, m) :: rest =>
    (if tid = sid then [⟨eventIdStr (c + 1), m⟩] else []) ++ streamEventsFrom sid (c + 1) rest

/-! Decimal rendering: a left inverse for `Nat.repr`, needed to show the
assigned event-id strings are pairwise distinct. -/

/-- Numeric value of a decimal digit character. -/
def digitVal (c : Char) : Nat := c.toNat - 48

/-- `pushDigits a n` is the value obtained by folding the decimal digits of
`n` (most significant first) onto the accumulator `a`. -/
def pushDigits (a n : Nat) : Nat :=
  if h : n < 10 then 10 * a + n
  else 10 * pushDigits a (n / 10) + n % 10
termination_by n
decreasing_by exact Nat.div_lt_self (by omega) (by omega)

/-- Decimal value of a digit-character list (most significant first). -/
def charsVal (l : List Char) : Nat :=
  l.foldl (fun a c => 10 * a + digitVal c) 0

/-! The tool layer: content blocks and Python numbers. -/

/-- `types.TextContent(type="text", text=...)`. -/
structure TextContent where
  type : String
  text : String
deriving DecidableEq

/-- A Python number: an `int` (arbitrary precision, exact) or a `float`
(idealized as an exact rational). -/
inductive PyNum where
  | int : Int → PyNum
  | float : Rat → PyNum
deriving DecidableEq

/-- The rational value of a Python number. -/
def PyNum.toRat : PyNum → Rat
  | .int n => (n : Rat)
  | .float q => q

/-- Length in bits of a natural number, by repeated halving (the first
argument is structural fuel; `n` halvings always suffice). -/
def bitLenAux : Nat → Nat → Nat
  | 0, _ => 0
  | fuel + 1, n => if n = 0 then 0 else bitLenAux fuel (n / 2) + 1

/-- Number of binary digits of `n` (`0` for `0`). -/
def bitLen (n : Nat) : Nat := bitLenAux n n

/-- Round a rational to the nearest IEEE-754 binary64 value
(round-to-nearest, ties-to-even, 53-bit significand), returned as the exact
rational value of that double.  `e` is the floor of the base-2 logarithm of
`|q|`, so the unrounded significand `|q| * 2 ^ (52 - e)` lies in
`[2^52, 2^53)`; it is rounded to the integer `m1` with ties to even, and the
result is `±m1 * 2 ^ (e - 52)`.  The model covers the normal range of
binary64 (no overflow to infinity, no subnormal underflow); every value the
program's claims exercise is far inside it. -/
def roundB64 (q : Rat) : Rat :=
  if q.num = 0 then 0
  else
    let a := q.num.natAbs
    let b := q.den
    let la := bitLen a
    let lb := bitLen b
    let e : Int :=
      if b * 2 ^ la ≤ a * 2 ^ lb then (la : Int) - (lb : Int)
      else (la : Int) - (lb : Int) - 1
    let shift : Int := 52 - e
    let num1 := if 0 ≤ shift then a * 2 ^ shift.toNat else a
    let den1 := if 0 ≤ shift then b else b * 2 ^ (-shift).toNat
    let m := num1 / den1
    let r := num1 % den1
    let m1 :=
      if den1 < 2 * r then m + 1
      else if 2 * r < den1 then m
      else if m % 2 = 0 then m else m + 1
    let sgn : Int := if q.num < 0 then -1 else 1
    if 0 ≤ e - 52 then mkRat (sgn * (m1 : Int) * 2 ^ (e - 52).toNat) 1
    else mkRat (sgn * (m1 : Int)) (2 ^ (52 - e).toNat)

/-- The binary64 value a Python operand contributes to a float operation:
a float operand is used as is; an int operand is first converted by
`float(int)`, which rounds. -/
def pyFloatVal : PyNum → Rat
  | .int n => roundB64 ((n : Int) : Rat)
  | .float q => q

/-- Python `x + y`: exact `int` when both operands are `int`; otherwise the
ints are converted to binary64 and the correctly rounded sum is
returned. -/
def pyAdd : PyNum → PyNum → PyNum
  | .int a, .int b => .int (a + b)
  | a, b => .float (roundB64 (pyFloatVal a + pyFloatVal b))

/-- Python `x - y`: exact on two ints, correctly rounded binary64
otherwise. -/
def pySub : PyNum → PyNum → PyNum
  | .int a, .int b => .int (a - b)
  | a, b => .float (roundB64 (pyFloatVal a - pyFloatVal b))

/-- Python `x * y`: exact on two ints, correctly rounded binary64
otherwise. -/
def pyMul : PyNum → PyNum → PyNum
  | .int a, .int b => .int (a * b)
  | a, b => .float (roundB64 (pyFloatVal a * pyFloatVal b))

/-- Python true division `x / y`: always a `float`.  CPython's `int / int`
computes the correctly rounded value of the exact quotient (it does not
convert each operand first); float operands divide as binary64, again the
correctly rounded exact quotient of their values. -/
def pyDiv : PyNum → PyNum → PyNum
  | .int x, .int y => .float (roundB64 ((x : Rat) / (y : Rat)))
  | a, b => .float (roundB64 (pyFloatVal a / pyFloatVal b))

/-- Python `v == 0` on numbers (true for `0` and `0.0`). -/
def pyIsZero (v : PyNum) : Bool := decide (v.toRat = 0)

/-- Python `str` on a number, as used by the f-strings of `call_tool`:
decimal for `int`; for a `float`, an integral value renders with a trailing
`.0` (e.g. `5.0`), exactly as Python prints it.  A non-integral float is
rendered `num/den`, a display simplification of Python's
shortest-round-trip decimal printing of the same value; it is the value
(`PyNum.toRat`), not this digit string, that the claims pin down, and every
literal string a theorem here asserts involves only the integral case,
where the rendering agrees with Python character for character. -/
def pyRepr : PyNum → String
  | .int n => toString n
  | .float q =>
    if q.den = 1 then toString q.num ++ ".0"
    else toString q.num ++ "/" ++ toString q.den

/-- Python f-string rendering of `Optional` number (`None` renders as
`"None"`). -/
def pyOptRepr : Option PyNum → String
  | none => "None"
  | some v => pyRepr v

/-- The keys of the `operations` dict of the `calculate` branch, in
insertion order. -/
def validOperations : List String := ["add", "subtract", "multiply", "divide"]

/-- `operations[operation](a, b)`: the lambda the `operations` dict holds
for the operation (`none` for a key not in the dict; the `divide` lambda
returns `None` for a zero divisor). -/
def opApply (operation : String) (x y : PyNum) : Option PyNum :=
  if operation = "add" then some (pyAdd x y)
  else if operation = "subtract" then some (pySub x y)
  else if operation = "multiply" then some (pyMul x y)
  else if operation = "divide" then
    (if pyIsZero y then none else some (pyDiv x y))
  else none

/-- The `calculate` branch of `call_tool`: unknown-operation check, then the
divide-by-zero check, then the result message. -/
def calculate (operation : String) (a b : PyNum) : List TextContent :=
  if operation ∉ validOperations then
    [⟨"text", "Unknown operation: " ++ operation ++
      ". Valid operations: [\x27add\x27, \x27subtract\x27, \x27multiply\x27, \x27divide\x27]"⟩]
  else if operation = "divide" ∧ pyIsZero b = true then
    [⟨"text", "Division by zero is not allowed"⟩]
  else
    [⟨"text", "Result: " ++ pyRepr a ++ " " ++ operation ++ " " ++ pyRepr b ++ " = " ++
      pyOptRepr (opApply operation a b)⟩]

/-- Modelled from the spec (refinement comparator only): the exact rational
arithmetic the spec's words prescribe for the four operations. -/
def specExactArith (operation : String) (x y : Rat) : Rat :=
  if operation = "add" then x + y
  else if operation = "subtract" then x - y
  else if operation = "multiply" then x * y
  else x / y

/-- Specification-side characterization of the numeric result of the
`calculate` tool (the comparator for the amended C7): exact integer
arithmetic when both operands are ints and the operation is not `divide`;
otherwise the IEEE-754 binary64 correctly rounded value of the exact
arithmetic on the operands' float values (for `int / int`, of the exact
quotient itself). -/
def pyResultSpec (operation : String) (a b : PyNum) : Rat :=
  match a, b with
  | .int x, .int y =>
    if operation = "divide" then roundB64 (specExactArith operation (x : Rat) (y : Rat))
    else specExactArith operation (x : Rat) (y : Rat)
  | _, _ => roundB64 (specExactArith operation (pyFloatVal a) (pyFloatVal b))

/-- One observable step of the `send_notification` branch: a published log
message (`ctx.session.send_log_message(level=..., data=..., logger=...)`)
or a sleep (`anyio.sleep(interval)`). -/
inductive TraceItem where
  | logMessage (level : String) (logger : String) (data : String)
  | sleep (seconds : PyNum)
deriving DecidableEq

/-- The notification text of iteration `i` (0-based, as the Python loop
variable): `f"[{i + 1}/{count}] Notification from '{caller}' - interval:
{interval}s"`. -/
def notifText (interval : PyNum) (count : Nat) (caller : String) (i : Nat) : String :=
  "[" ++ toString (i + 1) ++ "/" ++ toString count ++ "] Notification from \x27" ++
    caller ++ "\x27 - interval: " ++ pyRepr interval ++ "s"

/-- The `send_notification` branch of `call_tool`: the trace of published
messages and sleeps produced by the `for i in range(count)` loop (one log
message per iteration, a sleep after it except on the last iteration), and
the returned content. -/
def send_notification (interval : PyNum) (count : Nat) (caller : String) :
    List TraceItem × List TextContent :=
  ((List.range count).flatMap (fun i =>
      TraceItem.logMessage "info" "notification_stream" (notifText interval count caller i) ::
        (if i < count - 1 then [TraceItem.sleep interval] else [])),
   [⟨"text", "Sent " ++ toString count ++ " notifications with " ++ pyRepr interval ++
      "s interval for caller: " ++ caller⟩])

/-- The body of the `server://status` resource. -/
def serverStatusText : String := "Server is running and ready to handle requests."

/-- The body of the `server://config` resource: `json.dumps(config, indent=2)`
of the config dict, rendered literally. -/
def serverConfigText : String :=
  "\x7b\n  \"transport\": \"streamable-http\",\n  \"logging_level\": \"INFO\",\n  \"tools_enabled\": true,\n  \"resources_enabled\": true\n\x7d"

/-- The `read_resource` handler: the two known URIs return their bodies; any
other URI raises `ValueError(f"Unknown resource: {uri}")`, modelled as
`Except.error` carrying the exception message. -/
def read_resource (uri : String) : Except String String :=
  if uri = "server://status" then .ok serverStatusText
  else if uri = "server://config" then .ok serverConfigText
  else .error ("Unknown resource: " ++ uri)

/-! Lemmas: the decimal rendering used for event ids is injective. -/

theorem digitVal_digitChar (k : Nat) (h : k < 10) : digitVal (Nat.digitChar k) = k := by
  interval_cases k <;> rfl

theorem toDigitsCore_foldl (fuel : Nat) :
    ∀ (n a : Nat) (ds : List Char), n < fuel →
      List.foldl (fun x c => 10 * x + digitVal c) a (Nat.toDigitsCore 10 fuel n ds) =
        List.foldl (fun x c => 10 * x + digitVal c) (pushDigits a n) ds := by
  induction fuel with
  | zero => intro n a ds h; exact absurd h (Nat.not_lt_zero n)
  | succ fuel ih =>
    intro n a ds h
    rw [Nat.toDigitsCore]
    by_cases hn : n / 10 = 0
    · have hlt : n < 10 := by omega
      simp only [hn, if_true, List.foldl_cons]
      have hd : 10 * a + digitVal (Nat.digitChar (n % 10)) = pushDigits a n := by
        rw [digitVal_digitChar (n % 10) (Nat.mod_lt n (by omega)), pushDigits, dif_pos hlt]
        omega
      rw [hd]
    · have hfuel : n / 10 < fuel := by omega
      simp only [hn, if_false]
      rw [ih (n / 10) a _ hfuel, List.foldl_cons]
      have hd : 10 * pushDigits a (n / 10) + digitVal (Nat.digitChar (n % 10)) =
          pushDigits a n := by
        rw [digitVal_digitChar (n % 10) (Nat.mod_lt n (by omega))]
        conv_rhs => rw [pushDigits]
        rw [dif_neg (by omega)]
      rw [hd]

theorem pushDigits_zero (n : Nat) : pushDigits 0 n = n := by
  induction n using Nat.strong_induction_on with
  | _ n ih =>
    rw [pushDigits]
    by_cases h : n < 10
    · rw [dif_pos h]; omega
    · rw [dif_neg h, ih (n / 10) (Nat.div_lt_self (by omega) (by omega))]
      omega

theorem charsVal_toDigits (n : Nat) : charsVal (Nat.toDigits 10 n) = n := by
  show List.foldl _ 0 (Nat.toDigitsCore 10 (n + 1) n []) = n
  rw [toDigitsCore_foldl (n + 1) n 0 [] (Nat.lt_succ_self n)]
  simpa using pushDigits_zero n

theorem data_eventIdStr (k : Nat) :
    (eventIdStr k).data = "event_".data ++ Nat.toDigits 10 k := rfl

theorem decode_eventIdStr (k : Nat) : charsVal ((eventIdStr k).data.drop 6) = k := by
  rw [data_eventIdStr]
  show charsVal ((Nat.toDigits 10 k)) = k
  exact charsVal_toDigits k

theorem eventIdStr_injective : Function.Injective eventIdStr := by
  intro a b h
  have := congrArg (fun s => charsVal (s.data.drop 6)) h
  simpa [decode_eventIdStr] using this

theorem eventIdStr_ne_empty (k : Nat) : eventIdStr k ≠ "" := by
  intro h
  have h2 : "event_".data ++ Nat.toDigits 10 k = ([] : List Char) := by
    rw [← data_eventIdStr, h]
  have h3 := congrArg List.length h2
  have h6 : ("event_".data).length = 6 := rfl
  rw [List.length_append, h6] at h3
  simp only [List.length_nil] at h3
  omega

/-! Lemmas about the association-list model of the events dict. -/

theorem listLookup_update_self {M : Type} (sid : String) (ev : StoredEvent M)
    (l : List (String × List (StoredEvent M))) :
    listLookup (updateStream sid ev l) sid =
      (listLookup l sid).map (fun es => es ++ [ev]) := by
  induction l with
  | nil => rfl
  | cons p rest ih =>
    rcases p with ⟨key, es⟩
    by_cases h : key = sid
    · subst h
      simp [updateStream, listLookup]
    · have hb : (key == sid) = false := beq_eq_false_iff_ne.mpr h
      simp only [updateStream, hb, Bool.false_eq_true, if_false]
      simp only [listLookup, List.find?] at ih ⊢
      simpa [hb] using ih

theorem listLookup_update_other {M : Type} (sid sid' : String) (ev : StoredEvent M)
    (h : sid' ≠ sid) (l : List (String × List (StoredEvent M))) :
    listLookup (updateStream sid ev l) sid' = listLookup l sid' := by
  induction l with
  | nil => rfl
  | cons p rest ih =>
    rcases p with ⟨key, es⟩
    by_cases hk : key = sid
    · subst hk
      have hb : (key == sid') = false := beq_eq_false_iff_ne.mpr (fun he => h he.symm)
      simp [updateStream, listLookup, hb]
    · have hb : (key == sid) = false := beq_eq_false_iff_ne.mpr hk
      simp only [updateStream, hb, Bool.false_eq_true, if_false]
      by_cases hq : key = sid'
      · subst hq
        simp [listLookup]
      · have hb2 : (key == sid') = false := beq_eq_false_iff_ne.mpr hq
        simp only [listLookup, List.find?] at ih ⊢
        simpa [hb2] using ih

theorem listLookup_append_single_none {β : Type} {l : List (String × β)} {sid : String}
    (h : listLookup l sid = none) (v : β) :
    listLookup (l ++ [(sid, v)]) sid = some v := by
  induction l with
  | nil => simp [listLookup]
  | cons p rest ih =>
    rcases p with ⟨key, x⟩
    by_cases hk : key = sid
    · subst hk
      simp [listLookup] at h
    · have hb : (key == sid) = false := beq_eq_false_iff_ne.mpr hk
      simp only [listLookup, List.find?, hb] at h ⊢
      exact ih h

theorem listLookup_append_single_some {β : Type} {l : List (String × β)} {sid : String}
    {x : β} (h : listLookup l sid = some x) (sid0 : String) (v : β) :
    listLookup (l ++ [(sid0, v)]) sid = some x := by
  induction l with
  | nil => simp [listLookup] at h
  | cons p rest ih =>
    rcases p with ⟨key, y⟩
    by_cases hk : key = sid
    · subst hk
      simp [listLookup] at h ⊢
      exact h
    · have hb : (key == sid) = false := beq_eq_false_iff_ne.mpr hk
      simp only [listLookup, List.find?, hb] at h ⊢
      exact ih h

theorem listLookup_append_single_other {β : Type} (l : List (String × β))
    (sid sid' : String) (v : β) (h : sid' ≠ sid) :
    listLookup (l ++ [(sid, v)]) sid' = listLookup l sid' := by
  induction l with
  | nil =>
    have hb : (sid == sid') = false := beq_eq_false_iff_ne.mpr (fun he => h he.symm)
    simp [listLookup, hb]
  | cons p rest ih =>
    rcases p with ⟨key, y⟩
    by_cases hk : key = sid'
    · subst hk
      simp [listLookup]
    · have hb : (key == sid') = false := beq_eq_false_iff_ne.mpr hk
      simp only [listLookup, List.find?, hb] at ih ⊢
      simpa [hb] using ih

/-! Lemmas about `store_event`. -/

theorem store_event_fst {M : Type} (s : InMemoryEventStore M) (sid : String) (m : M) :
    (store_event s sid m).1 = eventIdStr (s.event_counter + 1) := rfl

theorem store_event_counter {M : Type} (s : InMemoryEventStore M) (sid : String) (m : M) :
    (store_event s sid m).2.event_counter = s.event_counter + 1 := rfl

theorem store_event_lookup_self {M : Type} (s : InMemoryEventStore M) (sid : String) (m : M) :
    listLookup (store_event s sid m).2.events sid =
      some ((listLookup s.events sid).getD [] ++
        [⟨eventIdStr (s.event_counter + 1), m⟩]) := by
  cases h : listLookup s.events sid with
  | none =>
    simp only [store_event, h, Option.isNone_none, if_true]
    rw [listLookup_update_self, listLookup_append_single_none h]
    rfl
  | some es =>
    simp only [store_event, h, Option.isNone_some, Bool.false_eq_true, if_false]
    rw [listLookup_update_self, h]
    rfl

theorem store_event_lookup_other {M : Type} (s : InMemoryEventStore M) (sid sid' : String)
    (m : M) (h : sid' ≠ sid) :
    listLookup (store_event s sid m).2.events sid' = listLookup s.events sid' := by
  cases hx : listLookup s.events sid with
  | none =>
    simp only [store_event, hx, Option.isNone_none, if_true]
    rw [listLookup_update_other sid sid' _ h, listLookup_append_single_other _ _ _ _ h]
  | some es =>
    simp only [store_event, hx, Option.isNone_some, Bool.false_eq_true, if_false]
    rw [listLookup_update_other sid sid' _ h]

theorem store_event_nonempty {M : Type} (s : InMemoryEventStore M)
    (hs : ∀ sid l, listLookup s.events sid = some l → l ≠ []) (sid : String) (m : M) :
    ∀ sid' l, listLookup (store_event s sid m).2.events sid' = some l → l ≠ [] := by
  intro sid' l hl
  by_cases h : sid' = sid
  · subst h
    rw [store_event_lookup_self] at hl
    cases hl
    simp
  · rw [store_event_lookup_other s sid sid' m h] at hl
    exact hs sid' l hl

/-! Lemmas about running a sequence of `store_event` calls. -/

theorem runFrom_counter {M : Type} :
    ∀ (ops : List (String × M)) (s : InMemoryEventStore M),
      (runFrom s ops).event_counter = s.event_counter + ops.length := by
  intro ops
  induction ops with
  | nil => intro s; simp [runFrom]
  | cons op rest ih =>
    intro s
    rcases op with ⟨sid, m⟩
    simp only [runFrom, List.length_cons]
    rw [ih, store_event_counter]
    omega

theorem lookupD_runFrom {M : Type} (sid : String) :
    ∀ (ops : List (String × M)) (s : InMemoryEventStore M),
      (listLookup (runFrom s ops).events sid).getD [] =
        (listLookup s.events sid).getD [] ++ streamEventsFrom sid s.event_counter ops := by
  intro ops
  induction ops with
  | nil => intro s; simp [runFrom, streamEventsFrom]
  | cons op rest ih =>
    intro s
    rcases op with ⟨tid, m⟩
    simp only [runFrom, streamEventsFrom]
    rw [ih, store_event_counter]
    by_cases h : tid = sid
    · subst h
      rw [store_event_lookup_self]
      simp [List.append_assoc]
    · rw [store_event_lookup_other s tid sid m (fun he => h he.symm)]
      simp [h]

theorem runFrom_nonempty {M : Type} :
    ∀ (ops : List (String × M)) (s : InMemoryEventStore M),
      (∀ sid l, listLookup s.events sid = some l → l ≠ []) →
      ∀ sid l, listLookup (runFrom s ops).events sid = some l → l ≠ [] := by
  intro ops
  induction ops with
  | nil => intro s hs; exact hs
  | cons op rest ih =>
    intro s hs
    rcases op with ⟨tid, m⟩
    simp only [runFrom]
    exact ih _ (store_event_nonempty s hs tid m)

theorem runStore_nonempty {M : Type} (ops : List (String × M)) :
    ∀ sid l, listLookup (runStore ops).events sid = some l → l ≠ [] := by
  refine runFrom_nonempty ops (emptyStore M) ?_
  intro sid l hl
  simp [emptyStore, listLookup] at hl

theorem runTraceFrom_eq {M : Type} :
    ∀ (ops : List (String × M)) (s : InMemoryEventStore M),
      runTraceFrom s ops =
        (List.range ops.length).map (fun i => eventIdStr (s.event_counter + (i + 1))) := by
  intro ops
  induction ops with
  | nil => intro s; rfl
  | cons op rest ih =>
    intro s
    rcases op with ⟨tid, m⟩
    simp only [runTraceFrom, store_event_fst, List.length_cons]
    rw [ih, store_event_counter, List.range_succ_eq_map, List.map_cons, List.map_map]
    have hfun : ((fun i => eventIdStr (s.event_counter + (i + 1))) ∘ Nat.succ) =
        fun i => eventIdStr (s.event_counter + 1 + (i + 1)) := by
      funext i
      show eventIdStr (s.event_counter + (i + 1 + 1)) = eventIdStr (s.event_counter + 1 + (i + 1))
      congr 1
      omega
    rw [hfun]

theorem runTrace_eq {M : Type} (ops : List (String × M)) :
    runTrace ops = (List.range ops.length).map (fun i => eventIdStr (i + 1)) := by
  rw [runTrace, runTraceFrom_eq]
  simp [emptyStore]

theorem streamEventsFrom_ids {M : Type} (sid : String) :
    ∀ (ops : List (String × M)) (c : Nat),
      ∃ ks : List Nat,
        (streamEventsFrom sid c ops).map StoredEvent.id = ks.map eventIdStr ∧
        ks.Pairwise (fun a b => a < b) ∧ ∀ k ∈ ks, c < k ∧ k ≤ c + ops.length := by
  intro ops
  induction ops with
  | nil => intro c; exact ⟨[], rfl, List.Pairwise.nil, by simp⟩
  | cons op rest ih =>
    intro c
    rcases op with ⟨tid, m⟩
    obtain ⟨ks, hks, hpw, hbound⟩ := ih (c + 1)
    by_cases h : tid = sid
    · refine ⟨(c + 1) :: ks, ?_, ?_, ?_⟩
      · simp [streamEventsFrom, h, hks]
      · exact List.Pairwise.cons (fun k hk => (hbound k hk).1) hpw
      · intro k hk
        rcases List.mem_cons.mp hk with hk | hk
        · subst hk; simp only [List.length_cons]; omega
        · have := hbound k hk; simp only [List.length_cons]; omega
    · refine ⟨ks, ?_, hpw, ?_⟩
      · simp [streamEventsFrom, h, hks]
      · intro k hk
        have := hbound k hk
        simp only [List.length_cons]
        omega

theorem streamEvents_sublist {M : Type} (sid : String) :
    ∀ (ops : List (String × M)) (s : InMemoryEventStore M),
      ((streamEventsFrom sid s.event_counter ops).map StoredEvent.id).Sublist
        (runTraceFrom s ops) := by
  intro ops
  induction ops with
  | nil => intro s; simp [streamEventsFrom, runTraceFrom]
  | cons op rest ih =>
    intro s
    rcases op with ⟨tid, m⟩
    have ihs := ih (store_event s tid m).2
    rw [store_event_counter] at ihs
    by_cases h : tid = sid
    · simpa [streamEventsFrom, runTraceFrom, store_event_fst, h] using
        List.Sublist.cons₂ (eventIdStr (s.event_counter + 1)) ihs
    · simpa [streamEventsFrom, runTraceFrom, store_event_fst, h] using
        List.Sublist.cons (eventIdStr (s.event_counter + 1)) ihs

/-! Lemmas about `get_events_since` and its search loop. -/

theorem get_events_since_snd {M : Type} (s : InMemoryEventStore M) (sid : String)
    (leid : Option String) : (get_events_since s sid leid).2 = s := by
  unfold get_events_since
  split
  · rfl
  · split
    · rfl
    · split
      · rfl
      · split <;> rfl

theorem scanSince_eq_none {M : Type} (leid : String) :
    ∀ l : List (StoredEvent M), (∀ e ∈ l, e.id ≠ leid) → scanSince leid l = none := by
  intro l
  induction l with
  | nil => intro _; rfl
  | cons e rest ih =>
    intro h
    have he : (e.id == leid) = false := beq_eq_false_iff_ne.mpr (h e (by simp))
    simp only [scanSince, he, Bool.false_eq_true, if_false]
    exact ih (fun x hx => h x (by simp [hx]))

theorem scanSince_at {M : Type} :
    ∀ (l : List (StoredEvent M)) (k : Nat) (hk : k < l.length),
      (l.map StoredEvent.id).Nodup →
      scanSince ((l.get ⟨k, hk⟩).id) l = some (l.drop (k + 1)) := by
  intro l
  induction l with
  | nil => intro k hk; simp at hk
  | cons e rest ih =>
    intro k hk hnd
    rw [List.map_cons, List.nodup_cons] at hnd
    cases k with
    | zero => simp [scanSince]
    | succ k =>
      have hki : k < rest.length := by simpa using hk
      have hget : ((e :: rest).get ⟨k + 1, hk⟩) = rest.get ⟨k, hki⟩ := rfl
      have hmem : (rest.get ⟨k, hki⟩).id ∈ rest.map StoredEvent.id :=
        List.mem_map.mpr ⟨rest.get ⟨k, hki⟩, List.get_mem rest k hki, rfl⟩
      have hne : (e.id == (rest.get ⟨k, hki⟩).id) = false :=
        beq_eq_false_iff_ne.mpr (fun he => hnd.1 (he ▸ hmem))
      rw [hget]
      simp only [scanSince, hne, Bool.false_eq_true, if_false]
      rw [ih k hki hnd.2]
      rfl

theorem lookup_runStore_eq {M : Type} {ops : List (String × M)} {sid : String}
    {l : List (StoredEvent M)} (h : listLookup (runStore ops).events sid = some l) :
    l = streamEventsFrom sid 0 ops := by
  have h2 := lookupD_runFrom sid ops (emptyStore M)
  rw [show runFrom (emptyStore M) ops = runStore ops from rfl, h] at h2
  simpa [emptyStore, listLookup] using h2

theorem runStore_stream_nodup {M : Type} {ops : List (String × M)} {sid : String}
    {l : List (StoredEvent M)} (h : listLookup (runStore ops).events sid = some l) :
    (l.map StoredEvent.id).Nodup := by
  obtain ⟨ks, hks, hpw, _⟩ := streamEventsFrom_ids sid ops 0
  rw [lookup_runStore_eq h, hks]
  exact (hpw.imp (fun hab => Nat.ne_of_lt hab)).map eventIdStr
    (fun a b hne he => hne (eventIdStr_injective he))

theorem runStore_stream_ids_ne_empty {M : Type} {ops : List (String × M)} {sid : String}
    {l : List (StoredEvent M)} (h : listLookup (runStore ops).events sid = some l) :
    ∀ e ∈ l, e.id ≠ "" := by
  obtain ⟨ks, hks, _, _⟩ := streamEventsFrom_ids sid ops 0
  intro e he
  have hmem : e.id ∈ l.map StoredEvent.id := List.mem_map.mpr ⟨e, he, rfl⟩
  rw [lookup_runStore_eq h, hks] at hmem
  obtain ⟨j, _, hj⟩ := List.mem_map.mp hmem
  rw [← hj]
  exact eventIdStr_ne_empty j

theorem get_events_since_none_fst {M : Type} (ops : List (String × M)) (sid : String) :
    (get_events_since (runStore ops) sid none).1 = streamEventsFrom sid 0 ops := by
  unfold get_events_since
  cases hl : listLookup (runStore ops).events sid with
  | none =>
    have h2 := lookupD_runFrom sid ops (emptyStore M)
    rw [show runFrom (emptyStore M) ops = runStore ops from rfl, hl] at h2
    simpa [emptyStore, listLookup] using h2.symm
  | some l => exact lookup_runStore_eq hl

/-! The claims about the event store. -/

/-- Claim C1: for every reachable store state, every stream present in the store,
and every `last_event_id` that matches no stored event id of that stream,
`get_events_since` returns the full stored sequence of the stream in storage
order (leaving the store unchanged), not an error and not an empty
sequence. -/
theorem c1_fallback_full_sequence {M : Type} (ops : List (String × M)) (sid : String)
    (l : List (StoredEvent M)) (leid : String)
    (hl : listLookup (runStore ops).events sid = some l)
    (hnot : ∀ e ∈ l, e.id ≠ leid) :
    get_events_since (runStore ops) sid (some leid) = (l, runStore ops) ∧ l ≠ [] := by
  constructor
  · unfold get_events_since
    rw [hl]
    by_cases he : leid = ""
    · simp [he]
    · simp [he, scanSince_eq_none leid l hnot]
  · exact runStore_nonempty ops sid l hl

/-- Witness for C1 at a concrete store: stream `"s"` holds two events and an
unknown `last_event_id` falls back to the full sequence. -/
theorem c1_witness :
    get_events_since (runStore [("s", 0), ("t", 1), ("s", 2)]) "s" (some "event_99") =
      ([⟨"event_1", 0⟩, ⟨"event_3", 2⟩], runStore [("s", 0), ("t", 1), ("s", 2)]) ∧
    ([⟨"event_1", 0⟩, ⟨"event_3", 2⟩] : List (StoredEvent Nat)) ≠ [] :=
  c1_fallback_full_sequence [("s", 0), ("t", 1), ("s", 2)] "s"
    [⟨"event_1", 0⟩, ⟨"event_3", 2⟩] "event_99" (by decide) (by decide)

/-- Claim C2: over any sequence of `store_event` calls on any interleaving of
streams, the assigned ids are, in call order, exactly the successive values
of the one shared counter (so contiguous and never reused); per stream,
`get_events_since` with no resume point returns that stream's events in call
order, their ids a subsequence of the global id sequence backed by strictly
increasing counter values. -/
theorem c2_ids_monotone_unique {M : Type} (ops : List (String × M)) :
    runTrace ops = (List.range ops.length).map (fun i => eventIdStr (i + 1)) ∧
    (runTrace ops).Nodup ∧
    ∀ sid : String,
      (get_events_since (runStore ops) sid none).1 = streamEventsFrom sid 0 ops ∧
      ((get_events_since (runStore ops) sid none).1.map StoredEvent.id).Sublist
        (runTrace ops) ∧
      ∃ ks : List Nat,
        (get_events_since (runStore ops) sid none).1.map StoredEvent.id =
          ks.map eventIdStr ∧
        ks.Pairwise (fun a b => a < b) ∧ ∀ k ∈ ks, 1 ≤ k ∧ k ≤ ops.length := by
  refine ⟨runTrace_eq ops, ?_, ?_⟩
  · rw [runTrace_eq ops]
    refine List.Nodup.map ?_ (List.nodup_range ops.length)
    intro a b h
    have := eventIdStr_injective h
    omega
  · intro sid
    refine ⟨get_events_since_none_fst ops sid, ?_, ?_⟩
    · rw [get_events_since_none_fst ops sid]
      have h := streamEvents_sublist sid ops (emptyStore M)
      simpa [emptyStore, runTrace] using h
    · rw [get_events_since_none_fst ops sid]
      obtain ⟨ks, hks, hpw, hbound⟩ := streamEventsFrom_ids sid ops 0
      refine ⟨ks, hks, hpw, ?_⟩
      intro k hk
      have := hbound k hk
      omega

/-- Witness for C2 at a concrete interleaving of two streams. -/
theorem c2_witness :
    runTrace [("s", "a"), ("t", "b"), ("s", "c")] =
      (List.range 3).map (fun i => eventIdStr (i + 1)) ∧
    (runTrace [("s", "a"), ("t", "b"), ("s", "c")]).Nodup ∧
    ∀ sid : String,
      (get_events_since (runStore [("s", "a"), ("t", "b"), ("s", "c")]) sid none).1 =
        streamEventsFrom sid 0 [("s", "a"), ("t", "b"), ("s", "c")] ∧
      ((get_events_since (runStore [("s", "a"), ("t", "b"), ("s", "c")]) sid
          none).1.map StoredEvent.id).Sublist
        (runTrace [("s", "a"), ("t", "b"), ("s", "c")]) ∧
      ∃ ks : List Nat,
        (get_events_since (runStore [("s", "a"), ("t", "b"), ("s", "c")]) sid
            none).1.map StoredEvent.id = ks.map eventIdStr ∧
        ks.Pairwise (fun a b => a < b) ∧ ∀ k ∈ ks, 1 ≤ k ∧ k ≤ 3 :=
  c2_ids_monotone_unique [("s", "a"), ("t", "b"), ("s", "c")]

/-- Claim C3: for a reachable store, a stream holding `n` events, and
`last_event_id` the id of the `k`-th stored event (here 0-based `k`,
`k < n`), `get_events_since` returns exactly the strict suffix after
position `k`, in storage order, leaving the store unchanged. -/
theorem c3_suffix_after_found {M : Type} (ops : List (String × M)) (sid : String)
    (l : List (StoredEvent M)) (k : Nat) (hk : k < l.length)
    (hl : listLookup (runStore ops).events sid = some l) :
    get_events_since (runStore ops) sid (some ((l.get ⟨k, hk⟩).id)) =
      (l.drop (k + 1), runStore ops) := by
  have hnd : (l.map StoredEvent.id).Nodup := runStore_stream_nodup hl
  have hne : (l.get ⟨k, hk⟩).id ≠ "" :=
    runStore_stream_ids_ne_empty hl _ (List.get_mem l k hk)
  unfold get_events_since
  rw [hl]
  simp only [if_neg hne]
  rw [scanSince_at l k hk hnd]

/-- Witness for C3: resuming from the first stored id of stream `"s"`
returns exactly the later event. -/
theorem c3_witness :
    get_events_since (runStore [("s", 0), ("t", 1), ("s", 2)]) "s" (some "event_1") =
      ([⟨"event_3", 2⟩], runStore [("s", 0), ("t", 1), ("s", 2)]) :=
  c3_suffix_after_found [("s", (0 : Nat)), ("t", 1), ("s", 2)] "s"
    [⟨"event_1", 0⟩, ⟨"event_3", 2⟩] 0 (by decide) (by decide)

/-- Claim C4: `store_event` always succeeds, returning the id rendered from the
incremented shared counter; the target stream grows by exactly the one new
event appended at the end, the counter increments by one, and every other
stream's entry is untouched. -/
theorem c4_store_event_frame {M : Type} (s : InMemoryEventStore M) (sid : String) (m : M) :
    (store_event s sid m).1 = eventIdStr (s.event_counter + 1) ∧
    (store_event s sid m).2.event_counter = s.event_counter + 1 ∧
    listLookup (store_event s sid m).2.events sid =
      some ((listLookup s.events sid).getD [] ++ [⟨(store_event s sid m).1, m⟩]) ∧
    ∀ sid', sid' ≠ sid →
      listLookup (store_event s sid m).2.events sid' = listLookup s.events sid' :=
  ⟨rfl, rfl, store_event_lookup_self s sid m,
    fun sid' h => store_event_lookup_other s sid sid' m h⟩

/-- Witness for C4 at a concrete state: storing on a fresh stream `"t"`
leaves stream `"s"` untouched. -/
theorem c4_witness :
    (store_event (runStore [("s", 0)]) "t" 5).1 = eventIdStr 2 ∧
    (store_event (runStore [("s", 0)]) "t" 5).2.event_counter = 2 ∧
    listLookup (store_event (runStore [("s", 0)]) "t" 5).2.events "t" =
      some ((listLookup (runStore [("s", 0)]).events "t").getD [] ++
        [⟨(store_event (runStore [("s", 0)]) "t" 5).1, 5⟩]) ∧
    listLookup (store_event (runStore [("s", 0)]) "t" 5).2.events "s" =
      listLookup (runStore [("s", 0)]).events "s" := by
  have h := c4_store_event_frame (runStore [("s", (0 : Nat))]) "t" 5
  exact ⟨h.1, h.2.1, h.2.2.1, h.2.2.2 "s" (by decide)⟩

/-- Claim C5: for a stream id absent from the store, `get_events_since` returns
the empty sequence for every `last_event_id` (absent or present), leaving
the store unchanged and raising nothing. -/
theorem c5_unknown_stream_empty {M : Type} (s : InMemoryEventStore M) (sid : String)
    (leid : Option String) (h : listLookup s.events sid = none) :
    get_events_since s sid leid = ([], s) := by
  unfold get_events_since
  rw [h]

/-- Witness for C5: an unknown stream id yields the empty sequence, both
with and without a `last_event_id`. -/
theorem c5_witness :
    get_events_since (runStore [("s", 0), ("t", 1), ("s", 2)]) "nope" none =
      ([], runStore [("s", 0), ("t", 1), ("s", 2)]) ∧
    get_events_since (runStore [("s", 0), ("t", 1), ("s", 2)]) "nope" (some "event_1") =
      ([], runStore [("s", (0 : Nat)), ("t", 1), ("s", 2)]) :=
  ⟨c5_unknown_stream_empty _ "nope" none (by decide),
   c5_unknown_stream_empty _ "nope" (some "event_1") (by decide)⟩

/-- Claim C10: `get_events_since` is a pure read: it returns the store exactly as
it was (events mapping and counter), and an immediately repeated call with
the same arguments returns the same sequence. -/
theorem c10_get_events_pure {M : Type} (s : InMemoryEventStore M) (sid : String)
    (leid : Option String) :
    (get_events_since s sid leid).2 = s ∧
    (get_events_since (get_events_since s sid leid).2 sid leid).1 =
      (get_events_since s sid leid).1 := by
  refine ⟨get_events_since_snd s sid leid, ?_⟩
  rw [get_events_since_snd]

/-- Witness for C10 at a concrete store and resume point. -/
theorem c10_witness :
    (get_events_since (runStore [("s", 0), ("t", 1), ("s", 2)]) "s" (some "event_1")).2 =
      runStore [("s", 0), ("t", 1), ("s", 2)] ∧
    (get_events_since
        (get_events_since (runStore [("s", 0), ("t", 1), ("s", 2)]) "s"
          (some "event_1")).2 "s" (some "event_1")).1 =
      (get_events_since (runStore [("s", (0 : Nat)), ("t", 1), ("s", 2)]) "s"
        (some "event_1")).1 :=
  c10_get_events_pure (runStore [("s", 0), ("t", 1), ("s", 2)]) "s" (some "event_1")

/-! The claims about the tool dispatcher and the resource handler. -/

/-- Claim C6: `calculate` with operation `divide` and a zero second operand
returns the single text content block `"Division by zero is not allowed"`
as a normal value — the embedding is a total function, so no exception
propagates. -/
theorem c6_divide_by_zero (a b : PyNum) (h : pyIsZero b = true) :
    calculate "divide" a b = [⟨"text", "Division by zero is not allowed"⟩] := by
  unfold calculate
  rw [if_neg (by decide : ¬("divide" ∉ validOperations)), if_pos ⟨rfl, h⟩]

/-- Witness for C6: dividing 10 by the integer 0. -/
theorem c6_witness :
    pyIsZero (PyNum.int 0) = true ∧
    calculate "divide" (PyNum.int 10) (PyNum.int 0) =
      [⟨"text", "Division by zero is not allowed"⟩] :=
  ⟨by decide, c6_divide_by_zero (PyNum.int 10) (PyNum.int 0) (by decide)⟩

/-- Counterexample for C7 as stated: at `calculate("divide", 1, 3)` the
program's numeric result is the binary64 double `0.3333333333333333`,
whose exact value is `6004799503160661 / 2 ^ 54`, not the exact quotient
`1/3` — Python's true division rounds, so the rendered result is not
computed by exact arithmetic. -/
theorem c7_counterexample :
    ∃ r : PyNum,
      opApply "divide" (PyNum.int 1) (PyNum.int 3) = some r ∧
      calculate "divide" (PyNum.int 1) (PyNum.int 3) =
        [⟨"text", "Result: 1 divide 3 = " ++ pyRepr r⟩] ∧
      r.toRat ≠ specExactArith "divide" (PyNum.int 1).toRat (PyNum.int 3).toRat := by
  refine ⟨pyDiv (PyNum.int 1) (PyNum.int 3), ?_, ?_, ?_⟩
  · show (if pyIsZero (PyNum.int 3) = true then none
      else some (pyDiv (PyNum.int 1) (PyNum.int 3))) =
      some (pyDiv (PyNum.int 1) (PyNum.int 3))
    rw [if_neg (by decide : ¬(pyIsZero (PyNum.int 3) = true))]
  · unfold calculate
    rw [if_neg (by decide : ¬("divide" ∉ validOperations)),
      if_neg (by decide : ¬("divide" = "divide" ∧ pyIsZero (PyNum.int 3) = true))]
    rfl
  · have hq : ((1 : Int) : Rat) / ((3 : Int) : Rat) = mkRat 1 3 := by
      rw [Rat.mkRat_eq_div]
      norm_num
    show roundB64 (((1 : Int) : Rat) / ((3 : Int) : Rat)) ≠
      ((1 : Int) : Rat) / ((3 : Int) : Rat)
    rw [hq]
    decide

/-- Claim C7 (amended): for each of the four operations (with a nonzero
divisor for `divide`), `calculate` returns a single text block of the form
`"Result: {a} {operation} {b} = {result}"`; the result's numeric value is
`pyResultSpec`: exact integer arithmetic when both operands are ints and the
operation is not `divide`, and otherwise the IEEE-754 binary64 correctly
rounded value of the exact arithmetic on the operands' float values — in
particular exact whenever that rounding changes nothing, as in the spec's
`10 / 2 = 5.0` example. -/
theorem c7_result_format (operation : String) (a b : PyNum)
    (hop : operation ∈ validOperations)
    (hdiv : operation = "divide" → pyIsZero b = false) :
    ∃ r : PyNum,
      calculate operation a b =
        [⟨"text", "Result: " ++ pyRepr a ++ " " ++ operation ++ " " ++ pyRepr b ++
          " = " ++ pyRepr r⟩] ∧
      r.toRat = pyResultSpec operation a b ∧
      (operation ≠ "divide" → ∀ x y : Int, a = PyNum.int x → b = PyNum.int y →
        r.toRat = specExactArith operation a.toRat b.toRat) := by
  simp only [validOperations, List.mem_cons, List.mem_singleton,
    List.not_mem_nil, or_false] at hop
  rcases hop with rfl | rfl | rfl | rfl
  · refine ⟨pyAdd a b, rfl, ?_, ?_⟩
    · cases a with
      | int x =>
        cases b with
        | int y => exact Int.cast_add x y
        | float q => rfl
      | float p => cases b <;> rfl
    · intro _ x y hax hby
      subst hax
      subst hby
      exact Int.cast_add x y
  · refine ⟨pySub a b, rfl, ?_, ?_⟩
    · cases a with
      | int x =>
        cases b with
        | int y => exact Int.cast_sub x y
        | float q => rfl
      | float p => cases b <;> rfl
    · intro _ x y hax hby
      subst hax
      subst hby
      exact Int.cast_sub x y
  · refine ⟨pyMul a b, rfl, ?_, ?_⟩
    · cases a with
      | int x =>
        cases b with
        | int y => exact Int.cast_mul x y
        | float q => rfl
      | float p => cases b <;> rfl
    · intro _ x y hax hby
      subst hax
      subst hby
      exact Int.cast_mul x y
  · have hb : pyIsZero b = false := hdiv rfl
    refine ⟨pyDiv a b, ?_, ?_, ?_⟩
    · unfold calculate
      rw [if_neg (by decide : ¬("divide" ∉ validOperations)),
        if_neg (by simp [hb] : ¬("divide" = "divide" ∧ pyIsZero b = true))]
      have happ : opApply "divide" a b = some (pyDiv a b) := by
        show (if pyIsZero b = true then none else some (pyDiv a b)) = some (pyDiv a b)
        rw [hb]
        simp
      rw [happ]
      rfl
    · cases a <;> cases b <;> rfl
    · intro hne _ _ _ _
      exact absurd rfl hne

/-- Witness for C7: the spec's own example, `calculate("divide", 10, 2)`,
where the rounding is the identity, yields the literal text
`"Result: 10 divide 2 = 5.0"`. -/
theorem c7_witness :
    ("divide" ∈ validOperations ∧ pyIsZero (PyNum.int 2) = false) ∧
    (∃ r : PyNum,
      calculate "divide" (PyNum.int 10) (PyNum.int 2) =
        [⟨"text", "Result: " ++ pyRepr (PyNum.int 10) ++ " " ++ "divide" ++ " " ++
          pyRepr (PyNum.int 2) ++ " = " ++ pyRepr r⟩] ∧
      r.toRat = pyResultSpec "divide" (PyNum.int 10) (PyNum.int 2) ∧
      ("divide" ≠ "divide" → ∀ x y : Int, PyNum.int 10 = PyNum.int x →
        PyNum.int 2 = PyNum.int y →
        r.toRat = specExactArith "divide" (PyNum.int 10).toRat (PyNum.int 2).toRat)) ∧
    calculate "divide" (PyNum.int 10) (PyNum.int 2) =
      [⟨"text", "Result: 10 divide 2 = 5.0"⟩] :=
  ⟨⟨by decide, by decide⟩,
   c7_result_format "divide" (PyNum.int 10) (PyNum.int 2) (by decide) (fun _ => by decide),
   by
    have hq : ((10 : Int) : Rat) / ((2 : Int) : Rat) = (5 : Rat) := by norm_num
    have happ : opApply "divide" (PyNum.int 10) (PyNum.int 2) =
        some (PyNum.float (roundB64 (5 : Rat))) := by
      show (if pyIsZero (PyNum.int 2) = true then none
        else some (pyDiv (PyNum.int 10) (PyNum.int 2))) =
        some (PyNum.float (roundB64 (5 : Rat)))
      rw [if_neg (by decide : ¬(pyIsZero (PyNum.int 2) = true))]
      show some (PyNum.float (roundB64 (((10 : Int) : Rat) / ((2 : Int) : Rat)))) =
        some (PyNum.float (roundB64 (5 : Rat)))
      rw [hq]
    unfold calculate
    rw [if_neg (by decide : ¬("divide" ∉ validOperations)),
      if_neg (by decide : ¬("divide" = "divide" ∧ pyIsZero (PyNum.int 2) = true)), happ]
    decide⟩

theorem flatMap_log_sleep_split {α : Type} (g : Nat → α) (s : α) (m : Nat) :
    (List.range (m + 1)).flatMap (fun i => g i :: (if i < m then [s] else [])) =
      (List.range m).flatMap (fun i => [g i, s]) ++ [g m] := by
  have h1 : ∀ l : List Nat, (∀ i ∈ l, i < m) →
      l.flatMap (fun i => g i :: (if i < m then [s] else [])) =
        l.flatMap (fun i => [g i, s]) := by
    intro l
    induction l with
    | nil => intro _; rfl
    | cons x xs ih =>
      intro h
      simp only [List.flatMap_cons]
      rw [if_pos (h x (by simp)), ih (fun i hi => h i (by simp [hi]))]
  rw [List.range_succ, List.flatMap_append,
    h1 (List.range m) (fun i hi => List.mem_range.mp hi)]
  simp

/-- Claim C8: for a nonnegative interval, a positive count, and any caller, the
`send_notification` branch publishes exactly `count` log messages in order
with the exact per-index text, with one sleep of the interval between
successive messages and none after the last, and returns the single summary
text block. -/
theorem c8_notifications (interval : PyNum) (count : Nat) (caller : String)
    (_hpos : 0 ≤ interval.toRat) (hcount : 1 ≤ count) :
    (send_notification interval count caller).1 =
      (List.range (count - 1)).flatMap (fun i =>
        [TraceItem.logMessage "info" "notification_stream"
          (notifText interval count caller i),
         TraceItem.sleep interval]) ++
      [TraceItem.logMessage "info" "notification_stream"
        (notifText interval count caller (count - 1))] ∧
    (send_notification interval count caller).1.filterMap
        (fun t => match t with
          | TraceItem.logMessage _ _ d => some d
          | TraceItem.sleep _ => none) =
      (List.range count).map (notifText interval count caller) ∧
    (send_notification interval count caller).2 =
      [⟨"text", "Sent " ++ toString count ++ " notifications with " ++ pyRepr interval ++
        "s interval for caller: " ++ caller⟩] := by
  obtain ⟨m, rfl⟩ : ∃ m, count = m + 1 := ⟨count - 1, by omega⟩
  have hsplit : (send_notification interval (m + 1) caller).1 =
      (List.range m).flatMap (fun i =>
        [TraceItem.logMessage "info" "notification_stream"
          (notifText interval (m + 1) caller i),
         TraceItem.sleep interval]) ++
      [TraceItem.logMessage "info" "notification_stream"
        (notifText interval (m + 1) caller m)] := by
    show (List.range (m + 1)).flatMap _ = _
    have hsimp : (m + 1) - 1 = m := by omega
    rw [hsimp]
    exact flatMap_log_sleep_split
      (fun i => TraceItem.logMessage "info" "notification_stream"
        (notifText interval (m + 1) caller i))
      (TraceItem.sleep interval) m
  have hmsg : ∀ l : List Nat,
      (l.flatMap (fun i =>
        [TraceItem.logMessage "info" "notification_stream"
          (notifText interval (m + 1) caller i),
         TraceItem.sleep interval])).filterMap
        (fun t => match t with
          | TraceItem.logMessage _ _ d => some d
          | TraceItem.sleep _ => none) =
        l.map (notifText interval (m + 1) caller) := by
    intro l
    induction l with
    | nil => rfl
    | cons x xs ih =>
      simp only [List.flatMap_cons, List.filterMap_append, List.map_cons] at ih ⊢
      rw [ih]
      rfl
  refine ⟨by simpa using hsplit, ?_, rfl⟩
  rw [hsplit]
  simp only [List.filterMap_append, hmsg (List.range m)]
  rw [List.range_succ, List.map_append]
  rfl

/-- Witness for C8: the spec's test `send_notification(interval=0, count=3,
caller="x")`: three messages in order with the literal texts, two zero
sleeps in between, none after the last. -/
theorem c8_witness :
    ((0 : Rat) ≤ (PyNum.int 0).toRat ∧ 1 ≤ 3) ∧
    ((send_notification (PyNum.int 0) 3 "x").1 =
      (List.range 2).flatMap (fun i =>
        [TraceItem.logMessage "info" "notification_stream"
          (notifText (PyNum.int 0) 3 "x" i),
         TraceItem.sleep (PyNum.int 0)]) ++
      [TraceItem.logMessage "info" "notification_stream"
        (notifText (PyNum.int 0) 3 "x" 2)] ∧
    (send_notification (PyNum.int 0) 3 "x").1.filterMap
        (fun t => match t with
          | TraceItem.logMessage _ _ d => some d
          | TraceItem.sleep _ => none) =
      (List.range 3).map (notifText (PyNum.int 0) 3 "x") ∧
    (send_notification (PyNum.int 0) 3 "x").2 =
      [⟨"text", "Sent " ++ toString 3 ++ " notifications with " ++ pyRepr (PyNum.int 0) ++
        "s interval for caller: " ++ "x"⟩]) ∧
    (send_notification (PyNum.int 0) 3 "x").1.filterMap
        (fun t => match t with
          | TraceItem.logMessage _ _ d => some d
          | TraceItem.sleep _ => none) =
      ["[1/3] Notification from \x27x\x27 - interval: 0s",
       "[2/3] Notification from \x27x\x27 - interval: 0s",
       "[3/3] Notification from \x27x\x27 - interval: 0s"] :=
  ⟨⟨by decide, by decide⟩,
   c8_notifications (PyNum.int 0) 3 "x" (by decide) (by decide),
   by decide⟩

/-- Claim C9: `read_resource` on any URI other than the two known ones fails with
the raised lookup failure (`ValueError`, modelled as `Except.error`, a
condition distinct from a normal read), while the two known URIs return
normally. -/
theorem c9_resource_lookup :
    (∀ uri : String, uri ≠ "server://status" → uri ≠ "server://config" →
      read_resource uri = Except.error ("Unknown resource: " ++ uri)) ∧
    read_resource "server://status" = Except.ok serverStatusText ∧
    read_resource "server://config" = Except.ok serverConfigText := by
  refine ⟨?_, rfl, rfl⟩
  intro uri h1 h2
  unfold read_resource
  rw [if_neg h1, if_neg h2]

/-- Witness for C9 at a concrete unknown URI. -/
theorem c9_witness :
    read_resource "server://other" =
      Except.error ("Unknown resource: " ++ "server://other") ∧
    read_resource "server://status" = Except.ok serverStatusText ∧
    read_resource "server://config" = Except.ok serverConfigText :=
  ⟨c9_resource_lookup.1 "server://other" (by decide) (by decide),
   c9_resource_lookup.2.1, c9_resource_lookup.2.2⟩

end MCPServer
